import Mathlib

/-!
Verification of the webb-tools/arkworks-gadgets hash gadgets.

This file gives a shallow embedding of the MiMC and Poseidon CRH gadgets
(src/mimc/constraints.rs, src/poseidon/constraints.rs) and of the mixer leaf
scheme (src/leaf/mixer/mod.rs), and proves the specified properties about them.

The gadget code computes with `FpVar<F>` circuit variables whose arithmetic
(add, mul, constants) mirrors field arithmetic value-for-value; the embedding
therefore interprets each gadget function at the value level, over an arbitrary
commutative ring `F` standing for the prime field.  Rust `panic!`/`assert!`
aborts and `SynthesisError` results are modelled by an explicit error type, so
every fallible operation returns `Except HashError`.  `usize` indices are `Nat`;
round-key indexing uses `List.getD` with default `0` (parameter generation is
specified to supply keys "of the exact length the permutation will index").
-/

namespace ArkworksGadgets

/-- Typed errors standing for the aborting `panic!`/`assert!` calls and for
`SynthesisError::AssignmentMissing` in the source. -/
inductive HashError where
  | widthOverflow (len width : Nat)
  | lengthMismatch (l r : Nat)
  | assertionFailed
  | assignmentMissing
deriving DecidableEq

deriving instance DecidableEq for Except

variable {F : Type} [CommRing F]

/-- Modelled from the spec: the byte-chunking step of `to_field_elements` /
`to_field_var_elements` (src/utils is not among the given sources).  Per §4.1
the byte string is cut into chunks of a fixed chunk size and a trailing
partial chunk is padded with zero bytes. -/
def byteChunks (chunkSize : Nat) (bytes : List Nat) : List (List Nat) :=
  (List.range ((bytes.length + chunkSize - 1) / chunkSize)).map
    (fun j =>
      let c := (bytes.drop (j * chunkSize)).take chunkSize
      c ++ List.replicate (chunkSize - c.length) 0)

/-- Modelled from the spec: a chunk of bytes read as a little-endian natural
number (§4.1 requires one fixed endianness shared by both paths). -/
def natOfBytesLE (chunk : List Nat) : Nat :=
  chunk.foldr (fun b acc => b + 256 * acc) 0

/-- Modelled from the spec: packing a byte string into field elements, used by
both the native and the gadget path (§4.1 requires the identical scheme on
both); the packing utilities of src/utils are not among the given sources. -/
def bytesToFieldElements (F : Type) [CommRing F] (chunkSize : Nat)
    (bytes : List Nat) : List F :=
  (byteChunks chunkSize bytes).map (fun c => (natOfBytesLE c : Nat))

/-- The buffer initialisation shared by both gadget `evaluate` functions:
`vec![zero; width]` overwritten element-wise by
`buffer.iter_mut().zip(inputs).for_each(|(b, l_b)| *b = l_b)`. -/
def writeToBuffer (width : Nat) (xs : List F) : List F :=
  xs.take width ++ List.replicate (width - xs.length) 0

theorem writeToBuffer_length (width : Nat) (xs : List F) :
    (writeToBuffer width xs).length = width := by
  simp only [writeToBuffer, List.length_append, List.length_take, List.length_replicate]
  omega

theorem writeToBuffer_of_le (width : Nat) (xs : List F) (h : xs.length ≤ width) :
    writeToBuffer width xs = xs ++ List.replicate (width - xs.length) 0 := by
  simp [writeToBuffer, List.take_of_length_le h]

/-- Value-level embedding of `MiMCParameters` (native) and `MiMCParametersVar`
(src/mimc/constraints.rs:16); the gadget allocates every field of the native
parameters as a circuit constant, so both carry the same values. -/
structure MiMCParameters (F : Type) where
  k : F
  rounds : Nat
  num_inputs : Nat
  num_outputs : Nat
  round_keys : List F

namespace MiMC

/-- One iteration of the round loop inside `CRHGadget::feistel`
(src/mimc/constraints.rs:88-114). -/
def feistelRound (p : MiMCParameters F) (s : F × F) (i : Nat) : F × F :=
  let c : F := if i = 0 ∨ i = p.rounds - 1 then 0 else p.round_keys.getD (i - 1) 0
  let t : F := if i = 0 then p.k + s.1 else p.k + s.1 + c
  let t2 : F := t * t
  let t4 : F := t2 * t2
  if i < p.rounds - 1 then
    (if i = 0 then s.2 else s.2 + t4 * t, s.1)
  else
    (s.1, s.2 + t4 * t)

/-- `CRHGadget::feistel` (src/mimc/constraints.rs:77) at value level. -/
def feistel (p : MiMCParameters F) (left right : F) : F × F :=
  (List.range p.rounds).foldl (feistelRound p) (left, right)

/-- The absorb loop of `CRHGadget::mimc` (src/mimc/constraints.rs:49-63). -/
def absorb (p : MiMCParameters F) (state : List F) : F × F :=
  (List.range state.length).foldl
    (fun acc i =>
      feistel p (if i = 0 then state.getD i 0 else acc.1 + state.getD i 0)
        (if i = 0 then 0 else acc.2))
    (0, 0)

/-- The squeeze loop of `CRHGadget::mimc` (src/mimc/constraints.rs:67-72):
returns the outputs pushed by the loop together with the final state. -/
def squeeze (p : MiMCParameters F) : Nat → F × F → List F × (F × F)
  | 0, s => ([], s)
  | n + 1, s =>
    let s' := feistel p s.1 s.2
    let rest := squeeze p n s'
    (s'.1 :: rest.1, rest.2)

/-- `CRHGadget::mimc` (src/mimc/constraints.rs:42).  The
`assert!(state.len() == parameters.num_inputs)` abort is modelled as the
`assertionFailed` error, checked before any round runs. -/
def mimc (p : MiMCParameters F) (state : List F) : Except HashError (List F) :=
  if state.length = p.num_inputs then
    let a := absorb p state
    .ok (a.1 :: (squeeze p p.num_outputs a).1)
  else
    .error .assertionFailed

/-- `CRHGadget::evaluate` of the `CRHGadget` trait impl
(src/mimc/constraints.rs:125) at value level: pack the input bytes, abort on
width overflow (the `panic!` is modelled as the `widthOverflow` error), write
the packed elements into a zero buffer of length `width` (= `P::WIDTH`), run
`mimc`, and return output 0 (`AssignmentMissing` if there is none). -/
def evaluate (chunkSize width : Nat) (p : MiMCParameters F) (input : List Nat) :
    Except HashError F :=
  let f_var_inputs : List F := bytesToFieldElements F chunkSize input
  if f_var_inputs.length > width then
    .error (.widthOverflow f_var_inputs.length width)
  else
    match mimc p (writeToBuffer width f_var_inputs) with
    | .error e => .error e
    | .ok outs =>
      match outs.head? with
      | some v => .ok v
      | none => .error .assignmentMissing

/-- `TwoToOneCRHGadget::evaluate` (src/mimc/constraints.rs:153): the
`assert_eq!(left_input.len(), right_input.len())` abort is modelled as the
`lengthMismatch` error, returned before any hashing work; otherwise the two
inputs are chained and passed to `evaluate`. -/
def evaluateTwoToOne (chunkSize width : Nat) (p : MiMCParameters F)
    (left right : List Nat) : Except HashError F :=
  if left.length = right.length then
    evaluate chunkSize width p (left ++ right)
  else
    .error (.lengthMismatch left.length right.length)

/-- The round constant of one Feistel round, as §4.3 of the spec words it:
`0` at round `0` and at round `ROUNDS-1`, otherwise the `(i-1)`-th round key. -/
def specRoundConstant (p : MiMCParameters F) (i : Nat) : F :=
  if i = 0 then 0 else if i = p.rounds - 1 then 0 else p.round_keys.getD (i - 1) 0

/-- The round value `t` as §4.3 words it: `k + x_l` at round `0`, otherwise
`k + x_l + c_i`. -/
def specT (p : MiMCParameters F) (i : Nat) (xl : F) : F :=
  if i = 0 then p.k + xl else p.k + xl + specRoundConstant p i

/-- The fifth power `t⁵` computed as `t²`, then `(t²)²`, then `t⁴·t` (§4.3). -/
def specT5 (t : F) : F :=
  let t2 := t * t
  let t4 := t2 * t2
  t4 * t

/-- One Feistel round as §4.3 words it: before the last round, the new `x_l`
is `x_r` (at round `0`) or `x_r + t⁵` and the new `x_r` is the old `x_l`;
at the last round `x_r` becomes `x_r + t⁵` and `x_l` is left unchanged. -/
def specFeistelRound (p : MiMCParameters F) (s : F × F) (i : Nat) : F × F :=
  if i < p.rounds - 1 then
    (if i = 0 then s.2 else s.2 + specT5 (specT p i s.1), s.1)
  else
    (s.1, s.2 + specT5 (specT p i s.1))

/-- Modelled from the spec: one Feistel evaluation over `ROUNDS` rounds as
§4.3 describes it, to be compared against the source `feistel`. -/
def specFeistel (p : MiMCParameters F) (left right : F) : F × F :=
  (List.range p.rounds).foldl (specFeistelRound p) (left, right)

theorem feistelRound_eq_spec (p : MiMCParameters F) (s : F × F) (i : Nat) :
    feistelRound p s i = specFeistelRound p s i := by
  unfold feistelRound specFeistelRound specT5 specT specRoundConstant
  by_cases h0 : i = 0 <;> by_cases hl : i = p.rounds - 1 <;> simp [h0, hl]

theorem feistel_eq_spec (p : MiMCParameters F) (left right : F) :
    feistel p left right = specFeistel p left right := by
  unfold feistel specFeistel
  exact List.foldl_ext _ _ _ (fun s i _ => feistelRound_eq_spec p s i)

/-- Modelled from the spec: the absorb phase of §4.3 — the running left value
accumulates `+= input[i]` before each single-output Feistel evaluation, with
initial state `(input[0], 0)`. -/
def specAbsorb (p : MiMCParameters F) (state : List F) : F × F :=
  (List.range state.length).foldl
    (fun acc i =>
      specFeistel p (if i = 0 then state.getD i 0 else acc.1 + state.getD i 0)
        (if i = 0 then 0 else acc.2))
    (0, 0)

theorem absorb_eq_spec (p : MiMCParameters F) (state : List F) :
    absorb p state = specAbsorb p state := by
  unfold absorb specAbsorb
  refine List.foldl_ext _ _ _ (fun acc i _ => ?_)
  rw [feistel_eq_spec]

/-- Modelled from the spec: the squeeze phase of §4.3 — `num_outputs` further
Feistel evaluations, each contributing its left value as an output. -/
def specSqueeze (p : MiMCParameters F) : Nat → F × F → List F × (F × F)
  | 0, s => ([], s)
  | n + 1, s =>
    let s' := specFeistel p s.1 s.2
    let rest := specSqueeze p n s'
    (s'.1 :: rest.1, rest.2)

theorem squeeze_eq_spec (p : MiMCParameters F) :
    ∀ (n : Nat) (s : F × F), squeeze p n s = specSqueeze p n s := by
  intro n
  induction n with
  | zero => intro s; rfl
  | succ m ih =>
    intro s
    simp only [squeeze, specSqueeze, feistel_eq_spec, ih]

/-- Modelled from the spec: the native MiMC `evaluate` (§4.1, §4.3, §4.5);
the native CRH implementation (src/mimc/mod.rs and src/utils) is not among the
given sources.  It packs the bytes with the shared scheme, rejects width
overflow, right-pads to exactly `width` elements, runs the absorb/squeeze
sequence of §4.3 and returns the first output of the squeeze phase. -/
def nativeEvaluate (chunkSize width : Nat) (p : MiMCParameters F)
    (input : List Nat) : Except HashError F :=
  let elems : List F := bytesToFieldElements F chunkSize input
  if elems.length > width then
    .error (.widthOverflow elems.length width)
  else
    let buffer := elems ++ List.replicate (width - elems.length) 0
    let outs := (specAbsorb p buffer).1 ::
      (specSqueeze p p.num_outputs (specAbsorb p buffer)).1
    match outs.head? with
    | some v => .ok v
    | none => .error .assignmentMissing

theorem evaluate_agrees_native (chunkSize width : Nat) (p : MiMCParameters F)
    (input : List Nat) (h : p.num_inputs = width) :
    evaluate chunkSize width p input = nativeEvaluate chunkSize width p input := by
  unfold evaluate nativeEvaluate
  by_cases hov : (bytesToFieldElements F chunkSize input).length > width
  · simp [hov]
  · have hle : (bytesToFieldElements F chunkSize input).length ≤ width :=
      Nat.le_of_not_lt hov
    simp only [hov, if_neg, ite_false]
    rw [writeToBuffer_of_le _ _ hle] at *
    unfold mimc
    rw [if_pos]
    · simp [absorb_eq_spec]
    · rw [List.length_append, List.length_replicate, h]
      omega

end MiMC

/-- Value-level embedding of the `Rounds` trait of the Poseidon module:
`WIDTH`, `FULL_ROUNDS`, `PARTIAL_ROUNDS` (here `mid_rounds`) and `SBOX`.
The S-box source (src/poseidon/sbox.rs) is not among the given sources, so
`sbox` is kept as an abstract per-element map, standing for
`SBOX.synthesize_sbox` / the native S-box application (§4.2 requires the two
to agree value-for-value). -/
structure PoseidonConfig (F : Type) where
  width : Nat
  full_rounds : Nat
  mid_rounds : Nat
  sbox : F → F

/-- Value-level embedding of `PoseidonParameters` (native) and
`PoseidonParametersVar` (src/poseidon/constraints.rs:16); the gadget allocates
round keys and MDS entries as circuit constants, so both carry the same
values. -/
structure PoseidonParameters (F : Type) where
  round_keys : List F
  mds_matrix : List (List F)

namespace Poseidon

/-- `CRHGadget::apply_linear_layer` (src/poseidon/constraints.rs:78):
matrix-vector product of the MDS matrix with the state. -/
def applyLinearLayer (state : List F) (mds : List (List F)) : List F :=
  (List.range state.length).map
    (fun i => (List.range state.length).foldl
      (fun sc j => sc + (mds.getD i []).getD j 0 * state.getD j 0) 0)

theorem applyLinearLayer_length (state : List F) (mds : List (List F)) :
    (applyLinearLayer state mds).length = state.length := by
  simp [applyLinearLayer]

/-- The per-element loop of a full round (src/poseidon/constraints.rs:40-44):
add the next round key to element `i`, apply the S-box to it, advance the
cursor. -/
def fullRoundElems (R : PoseidonConfig F) (keys : List F) (so : List F × Nat) :
    List F × Nat :=
  (List.range R.width).foldl
    (fun so i => (so.1.set i (R.sbox (so.1.getD i 0 + keys.getD so.2 0)), so.2 + 1))
    so

/-- One full round (src/poseidon/constraints.rs:38-47): the per-element loop
followed by the linear layer. -/
def fullRound (R : PoseidonConfig F) (p : PoseidonParameters F)
    (so : List F × Nat) : List F × Nat :=
  let so' := fullRoundElems R p.round_keys so
  (applyLinearLayer so'.1 p.mds_matrix, so'.2)

/-- The key-addition loop of a partial round (src/poseidon/constraints.rs:52-55):
add the next round key to every element, no S-box yet. -/
def midRoundElems (R : PoseidonConfig F) (keys : List F) (so : List F × Nat) :
    List F × Nat :=
  (List.range R.width).foldl
    (fun so i => (so.1.set i (so.1.getD i 0 + keys.getD so.2 0), so.2 + 1))
    so

/-- One partial round (src/poseidon/constraints.rs:50-61): key addition to all
elements, S-box on element 0 only, then the linear layer. -/
def midRound (R : PoseidonConfig F) (p : PoseidonParameters F)
    (so : List F × Nat) : List F × Nat :=
  let so' := midRoundElems R p.round_keys so
  let st := so'.1.set 0 (R.sbox (so'.1.getD 0 0))
  (applyLinearLayer st p.mds_matrix, so'.2)

/-- `CRHGadget::permute` (src/poseidon/constraints.rs:29) at value level:
`FULL_ROUNDS/2` full rounds, `PARTIAL_ROUNDS` partial rounds, `FULL_ROUNDS/2`
full rounds, with one `round_keys_offset` cursor threaded through all three
loops starting at 0. -/
def permute (R : PoseidonConfig F) (p : PoseidonParameters F)
    (state : List F) : List F :=
  let s1 := (List.range (R.full_rounds / 2)).foldl (fun so _ => fullRound R p so)
    (state, 0)
  let s2 := (List.range R.mid_rounds).foldl (fun so _ => midRound R p so) s1
  let s3 := (List.range (R.full_rounds / 2)).foldl (fun so _ => fullRound R p so) s2
  s3.1

/-- `CRHGadget::evaluate` of the `CRHGadget` trait impl
(src/poseidon/constraints.rs:97) at value level: pack, abort on width overflow
(the `panic!` is modelled as the `widthOverflow` error), zero-pad the buffer to
`R.width` (= `P::WIDTH`), permute, return element 0 (`AssignmentMissing` if
there is none). -/
def evaluate (chunkSize : Nat) (R : PoseidonConfig F) (p : PoseidonParameters F)
    (input : List Nat) : Except HashError F :=
  let f_var_inputs : List F := bytesToFieldElements F chunkSize input
  if f_var_inputs.length > R.width then
    .error (.widthOverflow f_var_inputs.length R.width)
  else
    match (permute R p (writeToBuffer R.width f_var_inputs)).head? with
    | some v => .ok v
    | none => .error .assignmentMissing

/-- `TwoToOneCRHGadget::evaluate` (src/poseidon/constraints.rs:125): the
`assert_eq!` abort is modelled as the `lengthMismatch` error, returned before
any hashing work; otherwise the two inputs are chained and passed to
`evaluate`. -/
def evaluateTwoToOne (chunkSize : Nat) (R : PoseidonConfig F)
    (p : PoseidonParameters F) (left right : List Nat) : Except HashError F :=
  if left.length = right.length then
    evaluate chunkSize R p (left ++ right)
  else
    .error (.lengthMismatch left.length right.length)

/-- A list equals the `getD`-map over the range of its indices. -/
theorem map_getD_range {α : Type} (d : α) (l : List α) :
    (List.range l.length).map (fun i => l.getD i d) = l := by
  apply List.ext_getElem
  · simp
  · intro i h1 h2
    simp [List.getD_eq_getElem?_getD, List.getElem?_eq_getElem h2]

/-- The common shape of the two per-element loops of `permute`: setting element
`i` to a function of itself and the key at the running cursor, for `i` below
`n`, equals an index map with explicit key positions `off + i`. -/
theorem setLoop_eq {α : Type} (g : α → α → α) (keys : List α) (d : α) :
    ∀ (n : Nat) (st : List α) (off : Nat), n ≤ st.length →
    (List.range n).foldl
      (fun so i => (so.1.set i (g (so.1.getD i d) (keys.getD so.2 d)), so.2 + 1)) (st, off)
    = ((List.range st.length).map
        (fun i => if i < n then g (st.getD i d) (keys.getD (off + i) d) else st.getD i d),
       off + n) := by
  intro n
  induction n with
  | zero =>
    intro st off _
    simpa using (map_getD_range d st).symm
  | succ m ih =>
    intro st off h
    rw [List.range_succ, List.foldl_append, ih st off (Nat.le_of_succ_le h)]
    simp only [List.foldl_cons, List.foldl_nil]
    have hm : m < st.length := h
    have hgetD : ((List.range st.length).map
        (fun i => if i < m then g (st.getD i d) (keys.getD (off + i) d) else st.getD i d)).getD m d
        = st.getD m d := by
      rw [List.getD_eq_getElem _ d (by simpa using hm)]
      simp [List.getElem_map, List.getElem_range]
    refine Prod.ext ?_ (by omega)
    rw [hgetD]
    apply List.ext_getElem
    · simp
    · intro i h1 h2
      rw [List.getElem_set]
      by_cases hmi : m = i
      · subst hmi
        simp [List.getElem_map, List.getElem_range, Nat.lt_succ_self]
      · have h2' : i < st.length := by simpa using h2
        simp only [List.getElem_map, List.getElem_range, if_neg hmi]
        by_cases hlt : i < m
        · simp [hlt, Nat.lt_succ_of_lt hlt]
        · have hlt2 : ¬ i < m + 1 := by omega
          simp [hlt, hlt2]

/-- One full round as §4.4 words it, with an explicit key base: element `i`
receives key `base + i`, is passed through the S-box, then the state is mixed. -/
def specFullRound (R : PoseidonConfig F) (p : PoseidonParameters F)
    (base : Nat) (st : List F) : List F :=
  applyLinearLayer
    ((List.range R.width).map
      (fun i => R.sbox (st.getD i 0 + p.round_keys.getD (base + i) 0)))
    p.mds_matrix

/-- One partial round as §4.4 words it, with an explicit key base: every
element receives its key, the S-box is applied to element 0 only, then the
state is mixed. -/
def specMidRound (R : PoseidonConfig F) (p : PoseidonParameters F)
    (base : Nat) (st : List F) : List F :=
  let st' := (List.range R.width).map
    (fun i => st.getD i 0 + p.round_keys.getD (base + i) 0)
  applyLinearLayer (st'.set 0 (R.sbox (st'.getD 0 0))) p.mds_matrix

theorem specFullRound_length (R : PoseidonConfig F) (p : PoseidonParameters F)
    (base : Nat) (st : List F) : (specFullRound R p base st).length = R.width := by
  simp [specFullRound, applyLinearLayer_length]

theorem specMidRound_length (R : PoseidonConfig F) (p : PoseidonParameters F)
    (base : Nat) (st : List F) : (specMidRound R p base st).length = R.width := by
  simp [specMidRound, applyLinearLayer_length]

theorem fullRound_eq_spec (R : PoseidonConfig F) (p : PoseidonParameters F)
    (st : List F) (off : Nat) (h : st.length = R.width) :
    fullRound R p (st, off) = (specFullRound R p off st, off + R.width) := by
  unfold fullRound fullRoundElems specFullRound
  rw [setLoop_eq (fun x k => R.sbox (x + k)) p.round_keys 0 R.width st off (le_of_eq h.symm)]
  dsimp only
  rw [h]
  have hmap : (List.range R.width).map
      (fun i => if i < R.width then R.sbox (st.getD i 0 + p.round_keys.getD (off + i) 0)
        else st.getD i 0)
      = (List.range R.width).map (fun i => R.sbox (st.getD i 0 + p.round_keys.getD (off + i) 0)) :=
    List.map_congr_left (fun i hi => if_pos (List.mem_range.mp hi))
  rw [hmap]

theorem midRound_eq_spec (R : PoseidonConfig F) (p : PoseidonParameters F)
    (st : List F) (off : Nat) (h : st.length = R.width) :
    midRound R p (st, off) = (specMidRound R p off st, off + R.width) := by
  unfold midRound midRoundElems specMidRound
  rw [setLoop_eq (fun x k => x + k) p.round_keys 0 R.width st off (le_of_eq h.symm)]
  dsimp only
  rw [h]
  have hmap : (List.range R.width).map
      (fun i => if i < R.width then st.getD i 0 + p.round_keys.getD (off + i) 0 else st.getD i 0)
      = (List.range R.width).map (fun i => st.getD i 0 + p.round_keys.getD (off + i) 0) :=
    List.map_congr_left (fun i hi => if_pos (List.mem_range.mp hi))
  rw [hmap]

/-- A cursor-threaded round loop of `permute` equals its spec form with key
bases `off + r·width`, carrying the cursor forward by `width` per round. -/
theorem foldl_rounds_eq (f : List F × Nat → List F × Nat)
    (spec : Nat → List F → List F) (w : Nat)
    (hstep : ∀ st off, st.length = w → f (st, off) = (spec off st, off + w))
    (hlen : ∀ base st, (spec base st).length = w) :
    ∀ (k : Nat) (st : List F) (off : Nat), st.length = w →
    (List.range k).foldl (fun so _ => f so) (st, off)
    = ((List.range k).foldl (fun s r => spec (off + r * w) s) st, off + k * w) := by
  intro k
  induction k with
  | zero => intro st off h; simp
  | succ m ih =>
    intro st off h
    rw [List.range_succ, List.foldl_append, List.foldl_append, ih st off h]
    simp only [List.foldl_cons, List.foldl_nil]
    have hSlen : ((List.range m).foldl (fun s r => spec (off + r * w) s) st).length = w := by
      rcases Nat.eq_zero_or_pos m with hm | hm
      · subst hm; simpa using h
      · obtain ⟨m', rfl⟩ := Nat.exists_eq_succ_of_ne_zero (Nat.pos_iff_ne_zero.mp hm)
        rw [List.range_succ, List.foldl_append]
        simp only [List.foldl_cons, List.foldl_nil]
        exact hlen _ _
    rw [hstep _ _ hSlen]
    refine Prod.ext rfl (by ring_nf)

/-- Modelled from the spec: the three-phase Poseidon permutation of §4.4 with
explicit key bases — full round `r` of the first phase uses keys from
`r·WIDTH`, partial round `r` from `(FULL/2)·WIDTH + r·WIDTH`, and full round
`r` of the last phase from `(FULL/2)·WIDTH + PARTIAL·WIDTH + r·WIDTH`. -/
def specPermute (R : PoseidonConfig F) (p : PoseidonParameters F)
    (state : List F) : List F :=
  let s1 := (List.range (R.full_rounds / 2)).foldl
    (fun s r => specFullRound R p (r * R.width) s) state
  let s2 := (List.range R.mid_rounds).foldl
    (fun s r => specMidRound R p (R.full_rounds / 2 * R.width + r * R.width) s) s1
  (List.range (R.full_rounds / 2)).foldl
    (fun s r => specFullRound R p
      (R.full_rounds / 2 * R.width + R.mid_rounds * R.width + r * R.width) s) s2

theorem specPermute_foldl_length (spec : Nat → List F → List F) (w : Nat)
    (hlen : ∀ base st, (spec base st).length = w) (bases : Nat → Nat) :
    ∀ (k : Nat) (st : List F), st.length = w →
    ((List.range k).foldl (fun s r => spec (bases r) s) st).length = w := by
  intro k
  induction k with
  | zero => intro st h; simpa using h
  | succ m ih =>
    intro st h
    rw [List.range_succ, List.foldl_append]
    simp only [List.foldl_cons, List.foldl_nil]
    exact hlen _ _

/-- The source `permute` computes the three-phase spec permutation of §4.4. -/
theorem permute_eq_spec (R : PoseidonConfig F) (p : PoseidonParameters F)
    (state : List F) (h : state.length = R.width) :
    permute R p state = specPermute R p state := by
  unfold permute specPermute
  dsimp only
  rw [foldl_rounds_eq (fullRound R p) (specFullRound R p) R.width
    (fullRound_eq_spec R p) (specFullRound_length R p) _ state 0 h]
  have h1len : ((List.range (R.full_rounds / 2)).foldl
      (fun s r => specFullRound R p (0 + r * R.width) s) state).length = R.width :=
    specPermute_foldl_length (specFullRound R p) R.width (specFullRound_length R p)
      (fun r => 0 + r * R.width) _ state h
  rw [foldl_rounds_eq (midRound R p) (specMidRound R p) R.width
    (midRound_eq_spec R p) (specMidRound_length R p) _ _ _ h1len]
  have h2len : ((List.range R.mid_rounds).foldl
      (fun s r => specMidRound R p (0 + R.full_rounds / 2 * R.width + r * R.width) s)
      ((List.range (R.full_rounds / 2)).foldl
        (fun s r => specFullRound R p (0 + r * R.width) s) state)).length = R.width :=
    specPermute_foldl_length (specMidRound R p) R.width (specMidRound_length R p)
      (fun r => 0 + R.full_rounds / 2 * R.width + r * R.width) _ _ h1len
  rw [foldl_rounds_eq (fullRound R p) (specFullRound R p) R.width
    (fullRound_eq_spec R p) (specFullRound_length R p) _ _ _ h2len]
  simp only [Nat.zero_add]

/-- The per-element loop of a full round instrumented with the sequence of
round-key indices it reads: every `round_keys[round_keys_offset]` access of
the source appends the current offset to the trace. -/
def fullRoundElemsTrace (R : PoseidonConfig F) (keys : List F)
    (sot : (List F × Nat) × List Nat) : (List F × Nat) × List Nat :=
  (List.range R.width).foldl
    (fun sot i =>
      ((sot.1.1.set i (R.sbox (sot.1.1.getD i 0 + keys.getD sot.1.2 0)), sot.1.2 + 1),
        sot.2 ++ [sot.1.2]))
    sot

/-- One full round with the key-access trace. -/
def fullRoundTrace (R : PoseidonConfig F) (p : PoseidonParameters F)
    (sot : (List F × Nat) × List Nat) : (List F × Nat) × List Nat :=
  let sot' := fullRoundElemsTrace R p.round_keys sot
  ((applyLinearLayer sot'.1.1 p.mds_matrix, sot'.1.2), sot'.2)

/-- The key-addition loop of a partial round with the key-access trace. -/
def midRoundElemsTrace (R : PoseidonConfig F) (keys : List F)
    (sot : (List F × Nat) × List Nat) : (List F × Nat) × List Nat :=
  (List.range R.width).foldl
    (fun sot i =>
      ((sot.1.1.set i (sot.1.1.getD i 0 + keys.getD sot.1.2 0), sot.1.2 + 1),
        sot.2 ++ [sot.1.2]))
    sot

/-- One partial round with the key-access trace. -/
def midRoundTrace (R : PoseidonConfig F) (p : PoseidonParameters F)
    (sot : (List F × Nat) × List Nat) : (List F × Nat) × List Nat :=
  let sot' := midRoundElemsTrace R p.round_keys sot
  ((applyLinearLayer (sot'.1.1.set 0 (R.sbox (sot'.1.1.getD 0 0))) p.mds_matrix, sot'.1.2),
    sot'.2)

/-- `permute` instrumented with the ordered list of round-key indices it
reads; the state/offset components follow the source loops exactly. -/
def permuteTrace (R : PoseidonConfig F) (p : PoseidonParameters F)
    (state : List F) : (List F × Nat) × List Nat :=
  let s1 := (List.range (R.full_rounds / 2)).foldl (fun sot _ => fullRoundTrace R p sot)
    ((state, 0), [])
  let s2 := (List.range R.mid_rounds).foldl (fun sot _ => midRoundTrace R p sot) s1
  (List.range (R.full_rounds / 2)).foldl (fun sot _ => fullRoundTrace R p sot) s2

/-- A fold projection lemma: a projection commuting with the step functions
commutes with the whole fold. -/
theorem foldl_proj {α β ι : Type} (proj : α → β) (f : α → ι → α) (g : β → ι → β)
    (hc : ∀ a i, proj (f a i) = g (proj a) i) :
    ∀ (l : List ι) (a : α), proj (l.foldl f a) = l.foldl g (proj a) := by
  intro l
  induction l with
  | nil => intro a; rfl
  | cons x xs ih =>
    intro a
    simp only [List.foldl_cons]
    rw [← hc]
    exact ih _

theorem fullRoundElemsTrace_fst (R : PoseidonConfig F) (keys : List F)
    (sot : (List F × Nat) × List Nat) :
    (fullRoundElemsTrace R keys sot).1 = fullRoundElems R keys sot.1 :=
  foldl_proj Prod.fst _ _ (fun _ _ => rfl) (List.range R.width) sot

theorem midRoundElemsTrace_fst (R : PoseidonConfig F) (keys : List F)
    (sot : (List F × Nat) × List Nat) :
    (midRoundElemsTrace R keys sot).1 = midRoundElems R keys sot.1 :=
  foldl_proj Prod.fst _ _ (fun _ _ => rfl) (List.range R.width) sot

theorem fullRoundTrace_fst (R : PoseidonConfig F) (p : PoseidonParameters F)
    (sot : (List F × Nat) × List Nat) :
    (fullRoundTrace R p sot).1 = fullRound R p sot.1 := by
  unfold fullRoundTrace fullRound
  rw [← fullRoundElemsTrace_fst R p.round_keys sot]

theorem midRoundTrace_fst (R : PoseidonConfig F) (p : PoseidonParameters F)
    (sot : (List F × Nat) × List Nat) :
    (midRoundTrace R p sot).1 = midRound R p sot.1 := by
  unfold midRoundTrace midRound
  rw [← midRoundElemsTrace_fst R p.round_keys sot]

/-- The state/offset components of the instrumented permutation agree with
the source `permute`. -/
theorem permuteTrace_fst (R : PoseidonConfig F) (p : PoseidonParameters F)
    (state : List F) : (permuteTrace R p state).1.1 = permute R p state := by
  unfold permuteTrace permute
  dsimp only
  rw [foldl_proj Prod.fst (fun sot _ => fullRoundTrace R p sot) (fun so _ => fullRound R p so)
    (fun a _ => fullRoundTrace_fst R p a)]
  rw [foldl_proj Prod.fst (fun sot _ => midRoundTrace R p sot) (fun so _ => midRound R p so)
    (fun a _ => midRoundTrace_fst R p a)]
  rw [foldl_proj Prod.fst (fun sot _ => fullRoundTrace R p sot) (fun so _ => fullRound R p so)
    (fun a _ => fullRoundTrace_fst R p a)]

/-- The cursor/trace process of `n` consecutive key reads. -/
def keyCursorSteps (n : Nat) (ot : Nat × List Nat) : Nat × List Nat :=
  (List.range n).foldl (fun ot _ => (ot.1 + 1, ot.2 ++ [ot.1])) ot

theorem keyCursorSteps_eq (n : Nat) :
    ∀ (o : Nat) (t : List Nat),
    keyCursorSteps n (o, t) = (o + n, t ++ (List.range n).map (o + ·)) := by
  induction n with
  | zero => intro o t; simp [keyCursorSteps]
  | succ m ih =>
    intro o t
    unfold keyCursorSteps at *
    rw [List.range_succ, List.foldl_append, ih o t]
    simp only [List.foldl_cons, List.foldl_nil]
    refine Prod.ext rfl ?_
    simp [List.map_append, List.append_assoc]

/-- The cursor/trace projection of the instrumented per-element loops. -/
theorem fullRoundTrace_cursor (R : PoseidonConfig F) (p : PoseidonParameters F)
    (sot : (List F × Nat) × List Nat) :
    ((fullRoundTrace R p sot).1.2, (fullRoundTrace R p sot).2)
      = keyCursorSteps R.width (sot.1.2, sot.2) := by
  unfold fullRoundTrace fullRoundElemsTrace keyCursorSteps
  dsimp only
  exact foldl_proj (fun x => (x.1.2, x.2))
    (fun sot i =>
      ((sot.1.1.set i (R.sbox (sot.1.1.getD i 0 + p.round_keys.getD sot.1.2 0)), sot.1.2 + 1),
        sot.2 ++ [sot.1.2]))
    (fun ot _ => (ot.1 + 1, ot.2 ++ [ot.1]))
    (fun _ _ => rfl) (List.range R.width) sot

theorem midRoundTrace_cursor (R : PoseidonConfig F) (p : PoseidonParameters F)
    (sot : (List F × Nat) × List Nat) :
    ((midRoundTrace R p sot).1.2, (midRoundTrace R p sot).2)
      = keyCursorSteps R.width (sot.1.2, sot.2) := by
  unfold midRoundTrace midRoundElemsTrace keyCursorSteps
  dsimp only
  exact foldl_proj (fun x => (x.1.2, x.2))
    (fun sot i =>
      ((sot.1.1.set i (sot.1.1.getD i 0 + p.round_keys.getD sot.1.2 0), sot.1.2 + 1),
        sot.2 ++ [sot.1.2]))
    (fun ot _ => (ot.1 + 1, ot.2 ++ [ot.1]))
    (fun _ _ => rfl) (List.range R.width) sot

theorem foldl_keyCursor (w : Nat) : ∀ (k : Nat) (o : Nat) (t : List Nat),
    (List.range k).foldl (fun ot _ => keyCursorSteps w ot) (o, t)
    = (o + k * w, t ++ (List.range (k * w)).map (o + ·)) := by
  intro k
  induction k with
  | zero => intro o t; simp
  | succ m ih =>
    intro o t
    rw [List.range_succ, List.foldl_append, ih o t]
    simp only [List.foldl_cons, List.foldl_nil]
    rw [keyCursorSteps_eq]
    have hfst : o + m * w + w = o + (m + 1) * w := by ring
    have hr : List.range ((m + 1) * w) = List.range (m * w) ++
        (List.range w).map (m * w + ·) := by
      rw [Nat.succ_mul]
      exact List.range_add (m * w) w
    refine Prod.ext hfst ?_
    dsimp only
    rw [hr, List.map_append, List.append_assoc, List.map_map]
    congr 2
    refine List.map_congr_left (fun x _ => ?_)
    simp only [Function.comp_apply]
    omega

/-- The cursor/trace of the full instrumented permutation: starting from
offset 0 and the empty trace, the three phases read keys
`0, 1, 2, …` consecutively, `WIDTH` per round. -/
theorem permuteTrace_cursor (R : PoseidonConfig F) (p : PoseidonParameters F)
    (state : List F) :
    ((permuteTrace R p state).1.2, (permuteTrace R p state).2)
      = (R.full_rounds / 2 * R.width + R.mid_rounds * R.width
          + R.full_rounds / 2 * R.width,
        List.range (R.full_rounds / 2 * R.width + R.mid_rounds * R.width
          + R.full_rounds / 2 * R.width)) := by
  unfold permuteTrace
  dsimp only
  rw [foldl_proj (fun x => (x.1.2, x.2)) (fun sot _ => fullRoundTrace R p sot)
    (fun ot _ => keyCursorSteps R.width ot) (fun a _ => fullRoundTrace_cursor R p a)]
  rw [foldl_proj (fun x => (x.1.2, x.2)) (fun sot _ => midRoundTrace R p sot)
    (fun ot _ => keyCursorSteps R.width ot) (fun a _ => midRoundTrace_cursor R p a)]
  rw [foldl_proj (fun x => (x.1.2, x.2)) (fun sot _ => fullRoundTrace R p sot)
    (fun ot _ => keyCursorSteps R.width ot) (fun a _ => fullRoundTrace_cursor R p a)]
  dsimp only
  rw [foldl_keyCursor, foldl_keyCursor, foldl_keyCursor]
  refine Prod.ext (by omega) ?_
  simp only [Nat.zero_add, List.nil_append, List.map_id']
  rw [List.range_add, List.range_add]

/-- Modelled from the spec: the native Poseidon `evaluate` (§4.1, §4.4, §4.5);
the native CRH implementation (src/poseidon/mod.rs and src/utils) is not among
the given sources.  It packs the bytes with the shared scheme, rejects width
overflow, right-pads to exactly `WIDTH` elements, runs the three-phase
permutation of §4.4 and returns element 0 of the final state. -/
def nativeEvaluate (chunkSize : Nat) (R : PoseidonConfig F)
    (p : PoseidonParameters F) (input : List Nat) : Except HashError F :=
  let elems : List F := bytesToFieldElements F chunkSize input
  if elems.length > R.width then
    .error (.widthOverflow elems.length R.width)
  else
    let buffer := elems ++ List.replicate (R.width - elems.length) 0
    match (specPermute R p buffer).head? with
    | some v => .ok v
    | none => .error .assignmentMissing

theorem evaluate_matches_native (chunkSize : Nat) (R : PoseidonConfig F)
    (p : PoseidonParameters F) (input : List Nat) :
    evaluate chunkSize R p input = nativeEvaluate chunkSize R p input := by
  unfold evaluate nativeEvaluate
  by_cases hov : (bytesToFieldElements F chunkSize input).length > R.width
  · simp [hov]
  · have hle : (bytesToFieldElements F chunkSize input).length ≤ R.width :=
      Nat.le_of_not_lt hov
    simp only [hov, ite_false]
    rw [writeToBuffer_of_le _ _ hle,
      permute_eq_spec R p _ (by
        rw [← writeToBuffer_of_le _ _ hle]
        exact writeToBuffer_length R.width _)]

end Poseidon

/-- `Private` of the mixer leaf scheme (src/leaf/mixer/mod.rs:14): three
independently sampled field elements. -/
structure Private (F : Type) where
  r : F
  nullifier : F
  rho : F

/-- The `to_bytes![a, b, …]` macro used by the mixer: the concatenation of the
fixed-width byte serialisations of the listed field elements; the serialiser
`ser` is the externally supplied one (§3 "fixed-width serialization"). -/
def toBytesConcat (ser : F → List Nat) (xs : List F) : List Nat :=
  (xs.map ser).flatten

/-- `MixerLeaf::create_leaf` (src/leaf/mixer/mod.rs:72): hash the serialised
`(r, nullifier, rho)` with the configured CRH; the CRH `H::evaluate` is the
generic parameter `evalH`, mirroring the `H: CRH` type parameter. -/
def createLeaf {P : Type} (ser : F → List Nat)
    (evalH : P → List Nat → Except HashError F) (s : Private F) (h : P) :
    Except HashError F :=
  evalH h (toBytesConcat ser [s.r, s.nullifier, s.rho])

/-- `MixerLeaf::create_nullifier` (src/leaf/mixer/mod.rs:81): hash the
serialised `(nullifier, nullifier)` with the configured CRH. -/
def createNullifier {P : Type} (ser : F → List Nat)
    (evalH : P → List Nat → Except HashError F) (s : Private F) (h : P) :
    Except HashError F :=
  evalH h (toBytesConcat ser [s.nullifier, s.nullifier])

theorem head?_eq_getD {α : Type} (d : α) (l : List α) (h : 0 < l.length) :
    l.head? = some (l.getD 0 d) := by
  cases l with
  | nil => simp at h
  | cons a as => rfl

theorem squeeze_length (p : MiMCParameters F) :
    ∀ (n : Nat) (s : F × F), (MiMC.squeeze p n s).1.length = n := by
  intro n
  induction n with
  | zero => intro s; rfl
  | succ m ih => intro s; simp [MiMC.squeeze, ih]

theorem permute_length (R : PoseidonConfig F) (p : PoseidonParameters F)
    (state : List F) (h : state.length = R.width) :
    (Poseidon.permute R p state).length = R.width := by
  rw [Poseidon.permute_eq_spec R p state h]
  unfold Poseidon.specPermute
  dsimp only
  refine Poseidon.specPermute_foldl_length (Poseidon.specFullRound R p) R.width
    (Poseidon.specFullRound_length R p) _ _ _
    (Poseidon.specPermute_foldl_length (Poseidon.specMidRound R p) R.width
      (Poseidon.specMidRound_length R p) _ _ _
      (Poseidon.specPermute_foldl_length (Poseidon.specFullRound R p) R.width
        (Poseidon.specFullRound_length R p) _ _ _ h))

/-- The success path of the MiMC gadget `evaluate`: no overflow and matching
`num_inputs` give the head of the `mimc` output list. -/
theorem mimc_evaluate_ok (chunkSize width : Nat) (p : MiMCParameters F)
    (input : List Nat) (hni : p.num_inputs = width)
    (hle : (bytesToFieldElements F chunkSize input).length ≤ width) :
    MiMC.evaluate chunkSize width p input
      = .ok ((MiMC.absorb p
          (writeToBuffer width (bytesToFieldElements F chunkSize input))).1) := by
  unfold MiMC.evaluate
  rw [if_neg (by omega)]
  unfold MiMC.mimc
  rw [if_pos (by rw [writeToBuffer_length]; omega)]
  rfl

/- ## Fixtures for the concrete witnesses -/

/-- A 2-round, width-1 MiMC parameter set over `ZMod 101`. -/
def wMiMCParams : MiMCParameters (ZMod 101) :=
  { k := 1, rounds := 2, num_inputs := 1, num_outputs := 1, round_keys := [] }

/-- A MiMC parameter set whose `num_inputs` (2) differs from the width (1)
used at the call sites below. -/
def cexMiMCParams : MiMCParameters (ZMod 101) :=
  { k := 1, rounds := 2, num_inputs := 2, num_outputs := 1, round_keys := [] }

/-- A width-1 Poseidon configuration over `ZMod 101` with the degree-5
exponentiation S-box of §4.2. -/
def wPoseidonConfig : PoseidonConfig (ZMod 101) :=
  { width := 1, full_rounds := 2, mid_rounds := 1,
    sbox := fun x => x * x * x * x * x }

/-- Round keys and a 1×1 MDS matrix matching `wPoseidonConfig`. -/
def wPoseidonParams : PoseidonParameters (ZMod 101) :=
  { round_keys := [3, 4, 5], mds_matrix := [[2]] }

/-- A Poseidon configuration with an odd `FULL_ROUNDS` (= 1): the two full
phases then run `1/2 = 0` rounds each. -/
def cexPoseidonConfig : PoseidonConfig (ZMod 101) :=
  { width := 1, full_rounds := 1, mid_rounds := 1,
    sbox := fun x => x * x * x * x * x }

/-- Round keys and a 1×1 MDS matrix for `cexPoseidonConfig`. -/
def cexPoseidonParams : PoseidonParameters (ZMod 101) :=
  { round_keys := [3, 4], mds_matrix := [[2]] }

/- ## The claims -/

/-- C1: for every parameter set and every byte input, aligned or unaligned,
witnessing the gadget `evaluate` yields an output variable whose value equals
the native `evaluate` result, for both the MiMC and the Poseidon
instantiation.  (The MiMC pair needs `num_inputs` to match the configured
width, or both paths abort; see C9.) -/
theorem gadget_evaluate_refines_native {F : Type} [CommRing F] :
    (∀ (chunkSize width : Nat) (p : MiMCParameters F) (input : List Nat),
      p.num_inputs = width →
      MiMC.evaluate chunkSize width p input
        = MiMC.nativeEvaluate chunkSize width p input) ∧
    (∀ (chunkSize : Nat) (R : PoseidonConfig F) (p : PoseidonParameters F)
      (input : List Nat),
      Poseidon.evaluate chunkSize R p input
        = Poseidon.nativeEvaluate chunkSize R p input) :=
  ⟨fun chunkSize width p input h =>
      MiMC.evaluate_agrees_native chunkSize width p input h,
    fun chunkSize R p input => Poseidon.evaluate_matches_native chunkSize R p input⟩

/-- Witness for C1 at a concrete aligned input over `ZMod 101`. -/
theorem gadget_evaluate_refines_native_witness :
    MiMC.evaluate 1 1 wMiMCParams [5] = MiMC.nativeEvaluate 1 1 wMiMCParams [5] ∧
    Poseidon.evaluate 1 wPoseidonConfig wPoseidonParams [5]
      = Poseidon.nativeEvaluate 1 wPoseidonConfig wPoseidonParams [5] :=
  ⟨gadget_evaluate_refines_native.1 1 1 wMiMCParams [5] rfl,
    gadget_evaluate_refines_native.2 1 wPoseidonConfig wPoseidonParams [5]⟩

/-- C2: for rounds ≥ 2, one Feistel evaluation follows exactly the round
recurrence of §4.3 (boundary round constants, `t`, `t⁵` by squaring, the
swap discipline, and the no-swap last round). -/
theorem feistel_follows_spec_recurrence {F : Type} [CommRing F]
    (p : MiMCParameters F) (left right : F) (h : 2 ≤ p.rounds) :
    MiMC.feistel p left right = MiMC.specFeistel p left right :=
  MiMC.feistel_eq_spec p left right

/-- Witness for C2 on the 2-round fixture. -/
theorem feistel_follows_spec_recurrence_witness :
    MiMC.feistel wMiMCParams 3 4 = MiMC.specFeistel wMiMCParams 3 4 :=
  feistel_follows_spec_recurrence wMiMCParams 3 4 (by decide)

/-- C3 counterexample: with the 2-round, one-squeeze-output fixture and input
byte `[0]`, `evaluate` does not return `x_l` as it stands after the full
absorb/squeeze sequence (it returns the pre-squeeze absorption result 0,
while `x_l` after the squeeze evaluation is 1). -/
theorem mimc_output_not_final_left :
    MiMC.evaluate 1 1 wMiMCParams [0]
      ≠ .ok ((MiMC.squeeze wMiMCParams wMiMCParams.num_outputs
          (MiMC.absorb wMiMCParams
            (writeToBuffer 1 (bytesToFieldElements (ZMod 101) 1 [0])))).2.1) := by
  decide

/-- C3 amended: the gadget hash absorbs all inputs, then performs
`num_outputs` additional Feistel evaluations, and the value returned by
`evaluate` is the first element of the output sequence — `x_l` after the
absorb phase (the most recent absorption result), pushed before the squeeze
evaluations — not `x_l` after the squeeze evaluations. -/
theorem mimc_evaluate_returns_absorb_result {F : Type} [CommRing F]
    (chunkSize width : Nat) (p : MiMCParameters F) (input : List Nat)
    (hni : p.num_inputs = width)
    (hle : (bytesToFieldElements F chunkSize input).length ≤ width) :
    MiMC.mimc p (writeToBuffer width (bytesToFieldElements F chunkSize input))
      = .ok ((MiMC.absorb p
            (writeToBuffer width (bytesToFieldElements F chunkSize input))).1
          :: (MiMC.squeeze p p.num_outputs
            (MiMC.absorb p
              (writeToBuffer width (bytesToFieldElements F chunkSize input)))).1) ∧
    (MiMC.squeeze p p.num_outputs
        (MiMC.absorb p
          (writeToBuffer width (bytesToFieldElements F chunkSize input)))).1.length
      = p.num_outputs ∧
    MiMC.evaluate chunkSize width p input
      = .ok ((MiMC.absorb p
          (writeToBuffer width (bytesToFieldElements F chunkSize input))).1) := by
  refine ⟨?_, squeeze_length p p.num_outputs _, mimc_evaluate_ok chunkSize width p input hni hle⟩
  unfold MiMC.mimc
  rw [if_pos (by rw [writeToBuffer_length]; omega)]

/-- Witness for the amended C3 on the 2-round fixture with input byte `[2]`. -/
theorem mimc_evaluate_returns_absorb_result_witness :
    MiMC.mimc wMiMCParams (writeToBuffer 1 (bytesToFieldElements (ZMod 101) 1 [2]))
      = .ok ((MiMC.absorb wMiMCParams
            (writeToBuffer 1 (bytesToFieldElements (ZMod 101) 1 [2]))).1
          :: (MiMC.squeeze wMiMCParams wMiMCParams.num_outputs
            (MiMC.absorb wMiMCParams
              (writeToBuffer 1 (bytesToFieldElements (ZMod 101) 1 [2])))).1) ∧
    (MiMC.squeeze wMiMCParams wMiMCParams.num_outputs
        (MiMC.absorb wMiMCParams
          (writeToBuffer 1 (bytesToFieldElements (ZMod 101) 1 [2])))).1.length
      = wMiMCParams.num_outputs ∧
    MiMC.evaluate 1 1 wMiMCParams [2]
      = .ok ((MiMC.absorb wMiMCParams
          (writeToBuffer 1 (bytesToFieldElements (ZMod 101) 1 [2]))).1) :=
  mimc_evaluate_returns_absorb_result 1 1 wMiMCParams [2] rfl (by decide)

/-- C4: for every Poseidon parameter set, the permutation proceeds as
`FULL_ROUNDS/2` full rounds, then `PARTIAL_ROUNDS` partial rounds (key to
every element, S-box on element 0 only, then mixing), then `FULL_ROUNDS/2`
more full rounds, and `evaluate` returns element 0 of the final state. -/
theorem poseidon_permute_three_phases {F : Type} [CommRing F]
    (R : PoseidonConfig F) (p : PoseidonParameters F) :
    (∀ state : List F, state.length = R.width →
      Poseidon.permute R p state = Poseidon.specPermute R p state) ∧
    (∀ (chunkSize : Nat) (input : List Nat),
      (bytesToFieldElements F chunkSize input).length ≤ R.width → 0 < R.width →
      Poseidon.evaluate chunkSize R p input
        = .ok ((Poseidon.permute R p
            (writeToBuffer R.width (bytesToFieldElements F chunkSize input))).getD 0 0)) := by
  constructor
  · exact fun state h => Poseidon.permute_eq_spec R p state h
  · intro chunkSize input hle hw
    unfold Poseidon.evaluate
    dsimp only
    rw [if_neg (by omega)]
    rw [head?_eq_getD 0 _ (by
      rw [permute_length R p _ (writeToBuffer_length R.width _)]
      exact hw)]

/-- Witness for C4 on the width-1 fixture. -/
theorem poseidon_permute_three_phases_witness :
    Poseidon.permute wPoseidonConfig wPoseidonParams [7]
        = Poseidon.specPermute wPoseidonConfig wPoseidonParams [7] ∧
    Poseidon.evaluate 1 wPoseidonConfig wPoseidonParams [7]
      = .ok ((Poseidon.permute wPoseidonConfig wPoseidonParams
          (writeToBuffer 1 (bytesToFieldElements (ZMod 101) 1 [7]))).getD 0 0) :=
  ⟨(poseidon_permute_three_phases wPoseidonConfig wPoseidonParams).1 [7] (by decide),
    (poseidon_permute_three_phases wPoseidonConfig wPoseidonParams).2 1 [7]
      (by decide) (by decide)⟩

/-- C5 counterexample: with `FULL_ROUNDS = 1` (odd) the two full phases run
`1/2 = 0` rounds each, so the permutation consumes 1 key — not the
`FULL_ROUNDS·WIDTH + PARTIAL_ROUNDS·WIDTH = 2` keys the claim names. -/
theorem poseidon_key_stream_count_cex :
    (Poseidon.permuteTrace cexPoseidonConfig cexPoseidonParams [7]).2
      ≠ List.range (cexPoseidonConfig.full_rounds * cexPoseidonConfig.width
          + cexPoseidonConfig.mid_rounds * cexPoseidonConfig.width) := by
  decide

/-- C5 amended: the round-key cursor starts at 0, increases by exactly 1 per
key consumed and never resets between the three phases: the key indices read
are exactly `0, 1, …, (FULL_ROUNDS/2)·WIDTH + PARTIAL_ROUNDS·WIDTH +
(FULL_ROUNDS/2)·WIDTH - 1` in order, each exactly once (this equals the
claimed `FULL_ROUNDS·WIDTH + PARTIAL_ROUNDS·WIDTH` count when `FULL_ROUNDS`
is even); the instrumented permutation computes the same state as
`permute`. -/
theorem poseidon_key_cursor_sequential {F : Type} [CommRing F]
    (R : PoseidonConfig F) (p : PoseidonParameters F) (state : List F) :
    (Poseidon.permuteTrace R p state).2
      = List.range (R.full_rounds / 2 * R.width + R.mid_rounds * R.width
          + R.full_rounds / 2 * R.width) ∧
    (Poseidon.permuteTrace R p state).1.1 = Poseidon.permute R p state :=
  ⟨congrArg Prod.snd (Poseidon.permuteTrace_cursor R p state),
    Poseidon.permuteTrace_fst R p state⟩

/-- C6: when the packed element count exceeds the configured width, every
evaluator (MiMC and Poseidon, gadget and native) aborts with the
width-overflow error naming the offending length and width, and produces no
output. -/
theorem width_overflow_rejected {F : Type} [CommRing F]
    (chunkSize : Nat) (input : List Nat) :
    (∀ (width : Nat) (p : MiMCParameters F),
      (bytesToFieldElements F chunkSize input).length > width →
      MiMC.evaluate chunkSize width p input
          = .error (.widthOverflow (bytesToFieldElements F chunkSize input).length width) ∧
        MiMC.nativeEvaluate chunkSize width p input
          = .error (.widthOverflow (bytesToFieldElements F chunkSize input).length width)) ∧
    (∀ (R : PoseidonConfig F) (p : PoseidonParameters F),
      (bytesToFieldElements F chunkSize input).length > R.width →
      Poseidon.evaluate chunkSize R p input
          = .error (.widthOverflow (bytesToFieldElements F chunkSize input).length R.width) ∧
        Poseidon.nativeEvaluate chunkSize R p input
          = .error (.widthOverflow (bytesToFieldElements F chunkSize input).length R.width)) := by
  constructor
  · intro width p h
    constructor
    · unfold MiMC.evaluate
      dsimp only
      rw [if_pos h]
    · unfold MiMC.nativeEvaluate
      dsimp only
      rw [if_pos h]
  · intro R p h
    constructor
    · unfold Poseidon.evaluate
      dsimp only
      rw [if_pos h]
    · unfold Poseidon.nativeEvaluate
      dsimp only
      rw [if_pos h]

/-- Witness for C6: two bytes pack into 2 elements, exceeding width 1. -/
theorem width_overflow_rejected_witness :
    (MiMC.evaluate 1 1 wMiMCParams [1, 2]
        = .error (.widthOverflow (bytesToFieldElements (ZMod 101) 1 [1, 2]).length 1) ∧
      MiMC.nativeEvaluate 1 1 wMiMCParams [1, 2]
        = .error (.widthOverflow (bytesToFieldElements (ZMod 101) 1 [1, 2]).length 1)) ∧
    (Poseidon.evaluate 1 wPoseidonConfig wPoseidonParams [1, 2]
        = .error (.widthOverflow (bytesToFieldElements (ZMod 101) 1 [1, 2]).length
            wPoseidonConfig.width) ∧
      Poseidon.nativeEvaluate 1 wPoseidonConfig wPoseidonParams [1, 2]
        = .error (.widthOverflow (bytesToFieldElements (ZMod 101) 1 [1, 2]).length
            wPoseidonConfig.width)) :=
  ⟨(width_overflow_rejected 1 [1, 2]).1 1 wMiMCParams (by decide),
    (width_overflow_rejected 1 [1, 2]).2 wPoseidonConfig wPoseidonParams (by decide)⟩

/-- C7: the two-to-one combination fails with the length-mismatch error
before any hashing work whenever the operand lengths differ, and otherwise
returns exactly `evaluate` of the concatenation, for both gadgets. -/
theorem two_to_one_checks_length_then_concatenates {F : Type} [CommRing F]
    (chunkSize width : Nat) (pm : MiMCParameters F) (R : PoseidonConfig F)
    (pp : PoseidonParameters F) (left right : List Nat) :
    (left.length ≠ right.length →
      MiMC.evaluateTwoToOne chunkSize width pm left right
          = .error (.lengthMismatch left.length right.length) ∧
        Poseidon.evaluateTwoToOne chunkSize R pp left right
          = .error (.lengthMismatch left.length right.length)) ∧
    (left.length = right.length →
      MiMC.evaluateTwoToOne chunkSize width pm left right
          = MiMC.evaluate chunkSize width pm (left ++ right) ∧
        Poseidon.evaluateTwoToOne chunkSize R pp left right
          = Poseidon.evaluate chunkSize R pp (left ++ right)) := by
  constructor
  · intro h
    constructor
    · unfold MiMC.evaluateTwoToOne
      rw [if_neg h]
    · unfold Poseidon.evaluateTwoToOne
      rw [if_neg h]
  · intro h
    constructor
    · unfold MiMC.evaluateTwoToOne
      rw [if_pos h]
    · unfold Poseidon.evaluateTwoToOne
      rw [if_pos h]

/-- Witness for C7: the spec's 3-byte/5-byte mismatch raises the error. -/
theorem two_to_one_length_mismatch_witness :
    MiMC.evaluateTwoToOne 1 1 wMiMCParams [1, 2, 3] [1, 2, 3, 4, 5]
        = .error (.lengthMismatch 3 5) ∧
      Poseidon.evaluateTwoToOne 1 wPoseidonConfig wPoseidonParams
          [1, 2, 3] [1, 2, 3, 4, 5]
        = .error (.lengthMismatch 3 5) :=
  (two_to_one_checks_length_then_concatenates 1 1 wMiMCParams wPoseidonConfig
    wPoseidonParams [1, 2, 3] [1, 2, 3, 4, 5]).1 (by decide)

/-- C8: `create_leaf` hashes the serialisation of `r ‖ nullifier ‖ rho` and
`create_nullifier` hashes the serialisation of `nullifier ‖ nullifier`, for
every secret set and every hash. -/
theorem mixer_leaf_and_nullifier_inputs {F : Type} [CommRing F] {P : Type}
    (ser : F → List Nat) (evalH : P → List Nat → Except HashError F)
    (s : Private F) (h : P) :
    createLeaf ser evalH s h = evalH h (ser s.r ++ ser s.nullifier ++ ser s.rho) ∧
    createNullifier ser evalH s h = evalH h (ser s.nullifier ++ ser s.nullifier) := by
  constructor <;> simp [createLeaf, createNullifier, toBytesConcat]

/-- C9: the MiMC gadget `evaluate` has the undocumented precondition
`num_inputs = WIDTH`: the buffer handed to `mimc` always has exactly `WIDTH`
elements (zero-padded), so when `num_inputs ≠ WIDTH` the state-length
assertion aborts the evaluation before any rounds run, and when
`num_inputs = WIDTH` the assertion holds and evaluation succeeds. -/
theorem mimc_num_inputs_precondition {F : Type} [CommRing F]
    (chunkSize width : Nat) (p : MiMCParameters F) (input : List Nat)
    (hle : (bytesToFieldElements F chunkSize input).length ≤ width) :
    (writeToBuffer width (bytesToFieldElements F chunkSize input) : List F).length
        = width ∧
    (p.num_inputs ≠ width →
      MiMC.evaluate chunkSize width p input = .error .assertionFailed) ∧
    (p.num_inputs = width →
      ∃ v, MiMC.evaluate chunkSize width p input = .ok v) := by
  refine ⟨writeToBuffer_length width _, ?_, ?_⟩
  · intro hne
    unfold MiMC.evaluate
    dsimp only
    rw [if_neg (by omega)]
    unfold MiMC.mimc
    rw [if_neg (by rw [writeToBuffer_length]; omega)]
  · intro heq
    exact ⟨_, mimc_evaluate_ok chunkSize width p input heq hle⟩

/-- Witness for C9: `num_inputs = 2` against width 1 trips the assertion. -/
theorem mimc_num_inputs_precondition_witness :
    MiMC.evaluate 1 1 cexMiMCParams [3] = .error .assertionFailed :=
  (mimc_num_inputs_precondition 1 1 cexMiMCParams [3] (by decide)).2.1 (by decide)

/-- C10: `create_nullifier` depends only on the `nullifier` component of the
secrets: two secret sets agreeing on `nullifier` produce the same value under
every serialiser and every hash. -/
theorem nullifier_depends_only_on_nullifier {F : Type} [CommRing F] {P : Type}
    (ser : F → List Nat) (evalH : P → List Nat → Except HashError F)
    (s1 s2 : Private F) (h : P) (hn : s1.nullifier = s2.nullifier) :
    createNullifier ser evalH s1 h = createNullifier ser evalH s2 h := by
  simp [createNullifier, toBytesConcat, hn]

/-- Witness for C10: secrets `(1,2,3)` and `(4,2,5)` share the nullifier 2
and hash to the same value under the MiMC fixture. -/
theorem nullifier_depends_only_on_nullifier_witness :
    createNullifier (fun x : ZMod 101 => [x.val])
        (fun (w : Nat) b => MiMC.evaluate 1 w wMiMCParams b)
        { r := 1, nullifier := 2, rho := 3 } 1
      = createNullifier (fun x : ZMod 101 => [x.val])
        (fun (w : Nat) b => MiMC.evaluate 1 w wMiMCParams b)
        { r := 4, nullifier := 2, rho := 5 } 1 :=
  nullifier_depends_only_on_nullifier (fun x : ZMod 101 => [x.val])
    (fun (w : Nat) b => MiMC.evaluate 1 w wMiMCParams b)
    { r := 1, nullifier := 2, rho := 3 } { r := 4, nullifier := 2, rho := 5 } 1 rfl

end ArkworksGadgets
